import Mathlib

/-
  Verification development for the terraform-to-secrets tool.

  The Python sources embedded here are:
    src/terraform_to_secrets/terraform.py  (state walking and aggregation)
    src/terraform_to_secrets/github.py     (secret naming and publication)
    src/terraform_to_secrets/cli.py        (the main pipeline)

  Terraform state is parsed JSON, modelled by the JValue type below.  Python
  dicts are modelled as insertion-ordered association lists with unique keys:
  assignment to an existing key updates the value in place (keeping the key
  position) and assignment to a new key appends, exactly as CPython dicts
  behave.  Warnings logged by the code are modelled explicitly; debug and
  info logging is not modelled.
-/

namespace TFS

mutual

/-- JSON-like values appearing in a parsed Terraform state document. -/
inductive JValue where
  | null : JValue
  | bool (b : Bool) : JValue
  | num (n : Int) : JValue
  | str (s : String) : JValue
  | arr (elems : JArray) : JValue
  | obj (entries : JObject) : JValue
  deriving DecidableEq, Repr

/-- A JSON array (a list of JSON values). -/
inductive JArray where
  | nil : JArray
  | cons (hd : JValue) (tl : JArray) : JArray
  deriving DecidableEq, Repr

/-- A JSON object (an ordered mapping from string keys to JSON values). -/
inductive JObject where
  | nil : JObject
  | cons (key : String) (val : JValue) (tl : JObject) : JObject
  deriving DecidableEq, Repr

end

/-- View of a JSON object as an ordered association list. -/
def JObject.toList : JObject → List (String × JValue)
  | .nil => []
  | .cons k v t => (k, v) :: t.toList

/-- Builder for JSON objects from an ordered list of bindings. -/
def JObject.ofList : List (String × JValue) → JObject
  | [] => JObject.nil
  | (k, v) :: rest => JObject.cons k v (JObject.ofList rest)

/-- Python truthiness of a JSON value: None, False, 0, the empty string, the
empty array and the empty object are falsy; everything else is truthy. -/
def JValue.truthy : JValue → Bool
  | .null => false
  | .bool b => b
  | .num n => n != 0
  | .str s => s != ""
  | .arr JArray.nil => false
  | .arr _ => true
  | .obj JObject.nil => false
  | .obj _ => true

/-- Python truthiness of a dict.get result: an absent key gives None, which
is falsy; a present key has the truthiness of its value. -/
def truthyOpt : Option JValue → Bool
  | none => false
  | some v => v.truthy

/-- First-match lookup in an association list.  Association lists built by
alistInsert have unique keys, and then this is Python dict indexing. -/
def alistGet {α β : Type} [DecidableEq α] (d : List (α × β)) (k : α) : Option β :=
  match d with
  | [] => none
  | (k2, v) :: rest => if k2 = k then some v else alistGet rest k

/-- Python dict assignment d[k] = v: an existing key keeps its position and
gets the new value, a new key is appended at the end. -/
def alistInsert {α β : Type} [DecidableEq α] (d : List (α × β)) (k : α) (v : β) :
    List (α × β) :=
  match d with
  | [] => [(k, v)]
  | (k2, v2) :: rest =>
    if k2 = k then (k2, v) :: rest else (k2, v2) :: alistInsert rest k v

/-- Python d.update(e) (equivalently a loop of assignments over the pairs
of e, in order). -/
def dictUpdate {α β : Type} [DecidableEq α] (d : List (α × β)) (e : List (α × β)) :
    List (α × β) :=
  e.foldl (fun acc p => alistInsert acc p.1 p.2) d

/-- Lookup of the LAST binding of a key in a list of pairs (the value the
key holds after inserting all pairs in order into a dict). -/
def lastAssoc {α β : Type} [DecidableEq α] (l : List (α × β)) (k : α) : Option β :=
  alistGet l.reverse k

/-- First-preferring choice on options (Python: a if a is not None else b). -/
def optOr {β : Type} : Option β → Option β → Option β
  | some v, _ => some v
  | none, b => b

/-- The keys of an association list, in order. -/
def keysOf {α β : Type} (d : List (α × β)) : List α := d.map Prod.fst

/-- Constant tag key, terraform.py line 10. -/
def GITHUB_SECRET_NAME_TAG : String := "GitHub_Secret_Name"

/-- Constant tag key, terraform.py line 11. -/
def GITHUB_SECRET_TERRAFORM_LOOKUP_TAG : String := "GitHub_Secret_Terraform_Lookup"

/-- Warnings the modelled code can log (the logging.warning calls in
terraform.py and cli.py; github.py contains no warning call). -/
inductive LogW where
  | missingLookupTag (resource_name : String)
  | couldNotLookup (lookup_key : JValue)
  | noUsersFound
  | userSecretNamesOverlap
  deriving DecidableEq, Repr

/-- Extraction of the tags mapping from a resource values dict
(terraform.py lines 46-50): a missing "tags" key and an explicit null both
give the empty dict.  When present and non-null the code indexes the value
as a dict (the code annotates tags as a str-to-str dict); a tags value of
any other JSON shape would raise TypeError at runtime and occurs in no
claim, so the model returns the empty dict there as well. -/
def getTags (resource_data : List (String × JValue)) : List (String × JValue) :=
  match alistGet resource_data "tags" with
  | some (JValue.obj ts) => ts.toList
  | _ => []

/-- Python resource_data.get(lookup_tag) where the dict keys are strings: a
non-string hashable lookup tag value matches no key, so .get returns None
(a list or dict key would raise TypeError and occurs in no claim). -/
def jKeyGet (d : List (String × JValue)) (k : JValue) : Option JValue :=
  match k with
  | JValue.str s => alistGet d s
  | _ => none

/-- Embedding of find_tagged_secret (terraform.py lines 40-79).  Returns
the pairs the generator yields together with the warnings it logs.  The
code tests the two tag values for Python truthiness (a value of None from
.get, meaning an absent key, is falsy), resolves the lookup tag value as a
key of the resource values dict, and treats an absent key and a null value
alike because dict.get returns None for both. -/
def find_tagged_secret (resource_name : String)
    (resource_data : List (String × JValue)) :
    List (JValue × JValue) × List LogW :=
  let tags := getTags resource_data
  match alistGet tags GITHUB_SECRET_NAME_TAG with
  | none => ([], [])
  | some secret_name =>
    if secret_name.truthy then
      match alistGet tags GITHUB_SECRET_TERRAFORM_LOOKUP_TAG with
      | none => ([], [LogW.missingLookupTag resource_name])
      | some lookup_tag =>
        if lookup_tag.truthy then
          match jKeyGet resource_data lookup_tag with
          | none => ([], [LogW.couldNotLookup lookup_tag])
          | some JValue.null => ([], [LogW.couldNotLookup lookup_tag])
          | some secret_value => ([(secret_name, secret_value)], [])
        else ([], [LogW.missingLookupTag resource_name])
    else ([], [])

/-- A resource node of a Terraform state module.  The walker reads the
"address", "type" and "values" keys of the resource dict; "values" holds
the resource attributes (a missing "values" mapping behaves as the empty
dict, which resource.get with a dict default produces). -/
structure Resource where
  address : String
  type : String
  values : List (String × JValue)
  deriving DecidableEq, Repr

mutual

/-- A Terraform state module: a resource list and a child module list.  In
the JSON document either key may be absent; the code reads both with
defaults that make an absent key behave exactly like an empty list
(module.get with a list default, and a child_modules membership test
guarding a loop), so absence is modelled as the empty list. -/
inductive TfModule where
  | mk (resources : List Resource) (child_modules : TfModuleList)

/-- A list of Terraform state modules (the value of a child_modules key). -/
inductive TfModuleList where
  | nil : TfModuleList
  | cons (hd : TfModule) (tl : TfModuleList) : TfModuleList

end

/-- The resource list of a module. -/
def TfModule.resources : TfModule → List Resource
  | .mk rs _ => rs

/-- The child module list of a module. -/
def TfModule.child_modules : TfModule → TfModuleList
  | .mk _ cms => cms

/-- The top-level non-empty "values" section of a state document, holding
the root module. -/
structure StateValues where
  root_module : TfModule

/-- The filter condition of find_resources / find_resources_in_child_modules
(terraform.py lines 109 and 127): resource_type None keeps every resource,
otherwise the resource type must equal the filter exactly. -/
def matchesType (resource_type : Option String) (r : Resource) : Bool :=
  match resource_type with
  | none => true
  | some t => r.type == t

mutual

/-- The body of the find_resources_in_child_modules loop (terraform.py
lines 107-116) for one child module: yield the matching resources of the
module (lines 108-110), then recurse into its own child_modules list
(lines 112-116). -/
def find_resources_in_child_module (child_module : TfModule)
    (resource_type : Option String) : List Resource :=
  match child_module with
  | TfModule.mk rs cms =>
      rs.filter (matchesType resource_type) ++
      find_resources_in_child_modules cms resource_type

/-- Embedding of find_resources_in_child_modules (terraform.py lines
99-116): run the loop body on each child module in order. -/
def find_resources_in_child_modules (child_modules : TfModuleList)
    (resource_type : Option String) : List Resource :=
  match child_modules with
  | .nil => []
  | .cons m rest =>
      find_resources_in_child_module m resource_type ++
      find_resources_in_child_modules rest resource_type

end

/-- Embedding of find_resources (terraform.py lines 119-134): the matching
resources of the root module, then the recursive walk of its child
modules. -/
def find_resources (values : StateValues) (resource_type : Option String) :
    List Resource :=
  values.root_module.resources.filter (matchesType resource_type) ++
  find_resources_in_child_modules values.root_module.child_modules resource_type

mutual

/-- Depth-first pre-order traversal of one module, written from the words
of the spec: the module contributes its own resources first, then each of
its child modules in listed order, recursively. -/
def specPreorderModule : TfModule → List Resource
  | TfModule.mk rs cms => rs ++ specPreorderList cms

/-- Depth-first pre-order traversal of a child module list, written from
the words of the spec: each module in listed order. -/
def specPreorderList : TfModuleList → List Resource
  | .nil => []
  | .cons m rest => specPreorderModule m ++ specPreorderList rest

end

/-- Depth-first pre-order traversal of the whole state tree, written from
the words of the spec: the root module resources first, then every child
module recursively in listed order. -/
def specPreorder (values : StateValues) : List Resource :=
  values.root_module.resources ++ specPreorderList values.root_module.child_modules

/-- Embedding of find_outputs (terraform.py lines 82-86): walk the root
module resource list only, and yield the values.outputs object of every
resource whose values.outputs entry is truthy (for an object: non-empty).
A missing "values" or "outputs" key defaults to the empty dict, which is
falsy and skipped.  A truthy outputs value of non-object shape would make
the caller crash on .items() at runtime and occurs in no claim; the model
does not yield it. -/
def find_outputs (values : StateValues) : List (List (String × JValue)) :=
  values.root_module.resources.filterMap fun r =>
    match alistGet r.values "outputs" with
    | some (JValue.obj outs) =>
      if outs = JObject.nil then none else some outs.toList
    | _ => none

/-- View of an output data JSON value as the resource values dict handed to
find_tagged_secret.  Python passes the value unchecked; for a non-object
value the generator either finds no tags (and yields nothing) or raises at
runtime, and no claim reaches that case, so the model uses the empty dict
there. -/
def asResourceData : JValue → List (String × JValue)
  | JValue.obj o => o.toList
  | _ => []

/-- Concatenation of the yielded pairs and of the logged warnings of a
sequence of find_tagged_secret runs, each in run order. -/
def collectResults (l : List (List (JValue × JValue) × List LogW)) :
    List (JValue × JValue) × List LogW :=
  (l.flatMap Prod.fst, l.flatMap Prod.snd)

/-- Embedding of parse_tagged_outputs (terraform.py lines 89-96): for every
outputs object found, apply find_tagged_secret to each (output name,
output data) binding in order. -/
def parse_tagged_outputs (values : StateValues) :
    List (JValue × JValue) × List LogW :=
  collectResults ((find_outputs values).flatMap fun outs =>
    outs.map fun p => find_tagged_secret p.1 (asResourceData p.2))

/-- Embedding of parse_tagged_resources (terraform.py lines 150-156): apply
find_tagged_secret to the address and values of every resource of the full
traversal. -/
def parse_tagged_resources (values : StateValues) :
    List (JValue × JValue) × List LogW :=
  collectResults ((find_resources values none).map fun r =>
    find_tagged_secret r.address r.values)

/-- Python KeyError: indexing a dict with a missing key raises. -/
def dictIndex (d : List (String × JValue)) (k : String) : Except String JValue :=
  match alistGet d k with
  | none => Except.error ("KeyError: " ++ k)
  | some v => Except.ok v

/-- The body of the parse_creds loop (terraform.py lines 143-146): read
values id, secret and user by dict indexing, in that order, raising
KeyError on a missing key, and yield the triple (user, key id, secret). -/
def readCred (r : Resource) : Except String (JValue × JValue × JValue) := do
  let key_id ← dictIndex r.values "id"
  let secret ← dictIndex r.values "secret"
  let user ← dictIndex r.values "user"
  Except.ok (user, key_id, secret)

/-- Embedding of parse_creds (terraform.py lines 137-147): run readCred on
every resource of type aws_iam_access_key.  The generator is consumed
whole by get_users, so a raise at any resource aborts the aggregation. -/
def parse_creds (values : StateValues) :
    Except String (List (JValue × JValue × JValue)) :=
  (find_resources values (some "aws_iam_access_key")).mapM readCred

/-- Embedding of get_users (terraform.py lines 159-176): fold the yielded
credentials into a dict keyed by user, so a later credential for the same
user overwrites the earlier one, and warn when no user was found. -/
def get_users (values : StateValues) :
    Except String (List (JValue × (JValue × JValue)) × List LogW) := do
  let creds ← parse_creds values
  let user_creds := creds.foldl (fun d t => alistInsert d t.1 t.2) []
  Except.ok (user_creds, if user_creds.length = 0 then [LogW.noUsersFound] else [])

/-- Embedding of get_resource_secrets (terraform.py lines 179-189): insert
the tagged-resource pairs into a dict first, then the tagged-output pairs,
so a later pair with the same secret name overwrites an earlier one.  The
warnings of the two scans are logged in the same order. -/
def get_resource_secrets (values : StateValues) :
    List (JValue × JValue) × List LogW :=
  let r := parse_tagged_resources values
  let o := parse_tagged_outputs values
  ((r.1 ++ o.1).foldl (fun d p => alistInsert d p.1 p.2) [], r.2 ++ o.2)

/-- Word characters of the re pattern backslash-W, on ASCII: a letter, a
digit or an underscore (Char.isAlphanum tests exactly the ASCII letter and
digit ranges).  Python re is Unicode-aware, but on ASCII every character
class involved agrees with [A-Za-z0-9_]. -/
def isWordChar (c : Char) : Bool := c.isAlphanum || c == '_'

/-- Characterwise map on a string (the library String.map is defined by
well-founded recursion on byte positions; this structural version is used
so that concrete inputs compute). -/
def strMap (f : Char → Char) (s : String) : String := String.mk (s.data.map f)

/-- Python str.upper on the ASCII strings this tool handles (Char.toUpper
maps the ASCII lower-case range to upper case and keeps every other
character). -/
def strToUpper (s : String) : String := strMap Char.toUpper s

/-- Embedding of re.sub with the single-character non-word pattern: each
non-word character of the string is replaced by one underscore. -/
def subNonWord (s : String) : String :=
  strMap (fun c => if isWordChar c then c else '_') s

/-- The suffix computation of create_user_secrets (github.py lines 84-88),
given the number n of users in the credential dict: with more than one
user the suffix is ("_" + re.sub applied to the user name).upper(), and
with at most one user it is empty (the user name is never inspected).  A
non-string user name would make re.sub raise TypeError, modelled as an
error result; no claim reaches that case. -/
def userSuffix (n : Nat) (user_name : JValue) : Except String String :=
  if 1 < n then
    match user_name with
    | JValue.str s => Except.ok (strToUpper ("_" ++ subNonWord s))
    | _ => Except.error "TypeError: expected string or bytes-like object"
  else Except.ok ""

/-- One iteration of the create_user_secrets loop (github.py lines 82-90):
write the key id under AWS_ACCESS_KEY_ID with the suffix and the key
secret under AWS_SECRET_ACCESS_KEY with the suffix. -/
def userStep (n : Nat) (secrets : List (String × JValue))
    (p : JValue × (JValue × JValue)) : Except String (List (String × JValue)) := do
  let suffix ← userSuffix n p.1
  Except.ok (alistInsert
    (alistInsert secrets ("AWS_ACCESS_KEY_ID" ++ suffix) p.2.1)
    ("AWS_SECRET_ACCESS_KEY" ++ suffix) p.2.2)

/-- Embedding of create_user_secrets (github.py lines 79-91): fold the
per-user step over the credential dict in order, starting from the empty
dict.  The function performs no logging call. -/
def create_user_secrets (user_creds : List (JValue × (JValue × JValue))) :
    Except String (List (String × JValue)) :=
  user_creds.foldlM (userStep user_creds.length) []

/-- The per-character substitution of the naming policy as the (amended)
claim words it: a character of the username outside [A-Za-z0-9_] is
replaced by one underscore, any other character is kept. -/
def claimedSubChar (c : Char) : Char :=
  if ('A' ≤ c ∧ c ≤ 'Z') ∨ ('a' ≤ c ∧ c ≤ 'z') ∨ ('0' ≤ c ∧ c ≤ '9') ∨ c = '_'
  then c else '_'

/-- The username suffix as the (amended) claim words it: replace every
character outside [A-Za-z0-9_] with one underscore each (a run of k
non-word characters becomes k underscores), prefix the result with an
underscore and upper-case it. -/
def claimedSuffix (user_name : String) : String :=
  strToUpper ("_" ++ strMap claimedSubChar user_name)

/-- The multi-user output of the naming policy as the (amended) claim
words it: for every user in order, emit AWS_ACCESS_KEY_ID and
AWS_SECRET_ACCESS_KEY with the suffix of the username. -/
def claimedUserSecrets (users : List (String × (JValue × JValue))) :
    List (String × JValue) :=
  users.foldl (fun secrets p =>
    alistInsert
      (alistInsert secrets ("AWS_ACCESS_KEY_ID" ++ claimedSuffix p.1) p.2.1)
      ("AWS_SECRET_ACCESS_KEY" ++ claimedSuffix p.1) p.2.2) []

/-- One network call of the publisher (github.py): the public key GET that
get_public_key issues, and the secret PUT that set_secret issues.  The
sealed-box encryption of the value is a provided capability outside the
model; a PUT is identified by repository and secret name. -/
inductive NetCall where
  | getPublicKey (repo_name : String)
  | putSecret (repo_name : String) (secret_name : JValue)
  deriving DecidableEq, Repr

/-- Embedding of create_all_secrets (github.py lines 94-109): one public
key fetch, then one PUT per secret in dict order, unless dry_run, in which
case the loop only logs. -/
def create_all_secrets (secrets : List (JValue × JValue)) (repo_name : String)
    (dry_run : Bool) : List NetCall :=
  NetCall.getPublicKey repo_name ::
    (if dry_run then [] else secrets.map fun p => NetCall.putSecret repo_name p.1)

/-- A parsed Terraform state document as main consumes it.  The code
checks json_state.get("values") for truthiness and raises otherwise, so a
top-level values section that is absent, null or empty behaves identically
throughout the program; all three are modelled as none.  When the section
is truthy the walker indexes values.root_module directly, so the model
carries the root module inside. -/
structure StateDoc where
  values : Option StateValues

/-- Embedding of get_terraform_state (terraform.py lines 14-37) after the
state JSON has been read and parsed (file and subprocess input are outside
the model): raise when the values section is missing or falsy, otherwise
hand the state on. -/
def get_terraform_state (doc : StateDoc) : Except String StateValues :=
  match doc.values with
  | none => Except.error "No Terraform state found."
  | some v => Except.ok v

/-- Keys-overlap test of cli.py line 166: the user secret key set is not
disjoint from the resource secret key set. -/
def keysOverlap (user_secrets resource_secrets : List (JValue × JValue)) : Bool :=
  user_secrets.any fun p => resource_secrets.any fun q => p.1 == q.1

/-- Embedding of the secret-gathering and publishing part of cli.main
(cli.py lines 153-176), which runs once a repository name and token are in
hand (argument parsing, keyring and token handling are outside the model).
An exception raised by any stage propagates and aborts the run, and
create_all_secrets, the only stage issuing network calls, runs last.  User
secret names are Python strings and resource secret names arbitrary JSON
values; in the shared dict a string name from either source is the same
key, so the string names are embedded with JValue.str.  The result is the
merged secret dict, the warnings logged and the network calls issued. -/
def runMain (doc : StateDoc) (repo_name : String) (dry_run : Bool) :
    Except String (List (JValue × JValue) × List LogW × List NetCall) := do
  let state ← get_terraform_state doc
  let (user_creds, w1) ← get_users state
  let user_secrets ← create_user_secrets user_creds
  let user_secrets_j := user_secrets.map fun p => (JValue.str p.1, p.2)
  let (resource_secrets, w2) := get_resource_secrets state
  let w3 := if keysOverlap user_secrets_j resource_secrets
    then [LogW.userSecretNamesOverlap] else []
  let all_secrets := dictUpdate resource_secrets user_secrets_j
  Except.ok (all_secrets, w1 ++ w2 ++ w3,
    create_all_secrets all_secrets repo_name dry_run)

/-- The network calls a run has issued: none when the run aborted with an
exception (create_all_secrets runs after every other stage), and the calls
of create_all_secrets otherwise. -/
def issuedCalls
    (r : Except String (List (JValue × JValue) × List LogW × List NetCall)) :
    List NetCall :=
  match r with
  | Except.error _ => []
  | Except.ok t => t.2.2

/-
  Helper lemmas about the dict model.
-/

@[simp] theorem optOr_none {β : Type} (b : Option β) : optOr none b = b := rfl

@[simp] theorem optOr_some {β : Type} (v : β) (b : Option β) :
    optOr (some v) b = some v := rfl

theorem alistGet_append {α β : Type} [DecidableEq α] (a b : List (α × β)) (k : α) :
    alistGet (a ++ b) k = optOr (alistGet a k) (alistGet b k) := by
  induction a with
  | nil => simp [alistGet]
  | cons hd tl ih =>
    obtain ⟨k2, v⟩ := hd
    by_cases h : k2 = k <;> simp [alistGet, h, ih]

theorem alistGet_insert {α β : Type} [DecidableEq α] (d : List (α × β)) (k1 k : α)
    (v : β) :
    alistGet (alistInsert d k1 v) k = if k1 = k then some v else alistGet d k := by
  induction d with
  | nil =>
    by_cases h : k1 = k <;> simp [alistGet, alistInsert, h]
  | cons hd tl ih =>
    obtain ⟨k2, v2⟩ := hd
    by_cases h2 : k2 = k1
    · subst h2
      by_cases h : k2 = k <;> simp [alistGet, alistInsert, h]
    · by_cases h : k2 = k
      · subst h
        have : ¬ k1 = k2 := fun he => h2 he.symm
        simp [alistGet, alistInsert, h2, this]
      · simp [alistGet, alistInsert, h2, h, ih]

theorem lastAssoc_cons {α β : Type} [DecidableEq α] (k1 : α) (v1 : β)
    (rest : List (α × β)) (k : α) :
    lastAssoc ((k1, v1) :: rest) k =
      optOr (lastAssoc rest k) (if k1 = k then some v1 else none) := by
  simp [lastAssoc, List.reverse_cons, alistGet_append, alistGet]

theorem foldl_insert_get {α β : Type} [DecidableEq α] (l : List (α × β))
    (init : List (α × β)) (k : α) :
    alistGet (l.foldl (fun d p => alistInsert d p.1 p.2) init) k =
      optOr (lastAssoc l k) (alistGet init k) := by
  induction l generalizing init with
  | nil => simp [lastAssoc, alistGet]
  | cons hd tl ih =>
    obtain ⟨k1, v1⟩ := hd
    rw [List.foldl_cons, ih, lastAssoc_cons, alistGet_insert]
    by_cases h : k1 = k <;> cases hlast : lastAssoc tl k <;> simp [h]

theorem fromPairs_get {α β : Type} [DecidableEq α] (l : List (α × β)) (k : α) :
    alistGet (l.foldl (fun d p => alistInsert d p.1 p.2) []) k = lastAssoc l k := by
  rw [foldl_insert_get]
  cases lastAssoc l k <;> simp [alistGet]

theorem dictUpdate_get {α β : Type} [DecidableEq α] (d e : List (α × β)) (k : α) :
    alistGet (dictUpdate d e) k = optOr (lastAssoc e k) (alistGet d k) := by
  simp [dictUpdate, foldl_insert_get]

@[simp] theorem optOr_none_right {β : Type} (b : Option β) : optOr b none = b := by
  cases b <;> rfl

theorem wordChar_iff (c : Char) :
    isWordChar c = true ↔
      ('A' ≤ c ∧ c ≤ 'Z') ∨ ('a' ≤ c ∧ c ≤ 'z') ∨ ('0' ≤ c ∧ c ≤ '9') ∨ c = '_' := by
  simp [isWordChar, Char.isAlphanum, Char.isAlpha, Char.isDigit, Char.isUpper,
    Char.isLower, Char.le_def, beq_iff_eq]
  tauto

theorem subChar_eq (c : Char) :
    (if isWordChar c then c else '_') = claimedSubChar c := by
  unfold claimedSubChar
  by_cases h : ('A' ≤ c ∧ c ≤ 'Z') ∨ ('a' ≤ c ∧ c ≤ 'z') ∨ ('0' ≤ c ∧ c ≤ '9') ∨ c = '_'
  · rw [if_pos h, if_pos ((wordChar_iff c).mpr h)]
  · rw [if_neg h, if_neg ?_]
    intro hw
    exact h ((wordChar_iff c).mp hw)

theorem subNonWord_eq_claimed (s : String) :
    subNonWord s = strMap claimedSubChar s := by
  unfold subNonWord strMap
  congr 1
  apply List.map_congr_left
  intro c _
  exact subChar_eq c

theorem codeSuffix_eq_claimed (s : String) :
    strToUpper ("_" ++ subNonWord s) = claimedSuffix s := by
  rw [subNonWord_eq_claimed, claimedSuffix]

theorem foldlM_userStep_multi (users : List (String × (JValue × JValue)))
    (n : Nat) (h : 1 < n) :
    ∀ acc, (users.map fun p => (JValue.str p.1, p.2)).foldlM (userStep n) acc =
      Except.ok (users.foldl (fun secrets p =>
        alistInsert
          (alistInsert secrets ("AWS_ACCESS_KEY_ID" ++ claimedSuffix p.1) p.2.1)
          ("AWS_SECRET_ACCESS_KEY" ++ claimedSuffix p.1) p.2.2) acc) := by
  induction users with
  | nil => intro acc; rfl
  | cons hd tl ih =>
    intro acc
    rw [List.map_cons, List.foldlM_cons, List.foldl_cons]
    have hstep : userStep n acc (JValue.str hd.1, hd.2) =
        Except.ok (alistInsert
          (alistInsert acc ("AWS_ACCESS_KEY_ID" ++ claimedSuffix hd.1) hd.2.1)
          ("AWS_SECRET_ACCESS_KEY" ++ claimedSuffix hd.1) hd.2.2) := by
      simp [userStep, userSuffix, if_pos h, codeSuffix_eq_claimed, Bind.bind,
        Except.bind]
    rw [hstep]
    exact ih _

theorem create_user_secrets_multi (users : List (String × (JValue × JValue)))
    (h : 1 < users.length) :
    create_user_secrets (users.map fun p => (JValue.str p.1, p.2)) =
      Except.ok (claimedUserSecrets users) := by
  unfold create_user_secrets claimedUserSecrets
  rw [List.length_map]
  exact foldlM_userStep_multi users users.length h []

mutual

theorem find_resources_in_child_module_spec (m : TfModule)
    (resource_type : Option String) :
    find_resources_in_child_module m resource_type =
      (specPreorderModule m).filter (matchesType resource_type) :=
  match m with
  | TfModule.mk rs cms => by
    rw [find_resources_in_child_module, specPreorderModule, List.filter_append,
      find_resources_in_child_modules_spec cms resource_type]

theorem find_resources_in_child_modules_spec (cms : TfModuleList)
    (resource_type : Option String) :
    find_resources_in_child_modules cms resource_type =
      (specPreorderList cms).filter (matchesType resource_type) :=
  match cms with
  | .nil => by rw [find_resources_in_child_modules, specPreorderList]; rfl
  | .cons m rest => by
    rw [find_resources_in_child_modules, specPreorderList, List.filter_append,
      find_resources_in_child_module_spec m resource_type,
      find_resources_in_child_modules_spec rest resource_type]

end

/-- C6: find_resources walks the state depth-first in pre-order (the root
module resources in listed order, then each child module in listed order,
recursing into nested child modules, so nesting depth never matters), and
filters that traversal by nothing when resource_type is none and by exact
type equality otherwise. -/
theorem claim_C6 (values : StateValues) (resource_type : Option String) :
    find_resources values resource_type =
      (specPreorder values).filter (matchesType resource_type) ∧
    find_resources values none = specPreorder values ∧
    (∀ t, find_resources values (some t) =
      (specPreorder values).filter (fun r => r.type == t)) := by
  have hnone : matchesType none = fun _ => true := rfl
  refine ⟨?_, ?_, ?_⟩
  · simp [find_resources, specPreorder, List.filter_append,
      find_resources_in_child_modules_spec]
  · simp [find_resources, specPreorder, List.filter_append,
      find_resources_in_child_modules_spec, hnone]
  · intro t
    have hsome : matchesType (some t) = fun r => r.type == t := rfl
    simp [find_resources, specPreorder, List.filter_append,
      find_resources_in_child_modules_spec, hsome]

theorem claimedUserSecrets_pairs (users : List (String × (JValue × JValue))) :
    ∀ acc, users.foldl (fun secrets p =>
      alistInsert
        (alistInsert secrets ("AWS_ACCESS_KEY_ID" ++ claimedSuffix p.1) p.2.1)
        ("AWS_SECRET_ACCESS_KEY" ++ claimedSuffix p.1) p.2.2) acc =
    (users.flatMap fun p =>
      [("AWS_ACCESS_KEY_ID" ++ claimedSuffix p.1, p.2.1),
       ("AWS_SECRET_ACCESS_KEY" ++ claimedSuffix p.1, p.2.2)]).foldl
      (fun d q => alistInsert d q.1 q.2) acc := by
  induction users with
  | nil => intro acc; rfl
  | cons hd tl ih =>
    intro acc
    rw [List.foldl_cons, List.flatMap_cons, List.foldl_append, List.foldl_cons,
      List.foldl_cons, List.foldl_nil]
    exact ih _

/-- C1 counterexample: with the two users a..b and c the code derives the
suffix _A__B for user a..b, replacing each of the two adjacent non-word
characters by its own underscore, where the claim calls for the run of the
two to collapse into the single-underscore suffix _A_B; the emitted names
carry the double underscore and no name with the claimed single-underscore
suffix exists. -/
theorem claim_C1_counterexample :
    create_user_secrets
      [(JValue.str "a..b", (JValue.str "K1", JValue.str "S1")),
       (JValue.str "c", (JValue.str "K2", JValue.str "S2"))] =
      Except.ok [("AWS_ACCESS_KEY_ID_A__B", JValue.str "K1"),
        ("AWS_SECRET_ACCESS_KEY_A__B", JValue.str "S1"),
        ("AWS_ACCESS_KEY_ID_C", JValue.str "K2"),
        ("AWS_SECRET_ACCESS_KEY_C", JValue.str "S2")] ∧
    alistGet [("AWS_ACCESS_KEY_ID_A__B", JValue.str "K1"),
        ("AWS_SECRET_ACCESS_KEY_A__B", JValue.str "S1"),
        ("AWS_ACCESS_KEY_ID_C", JValue.str "K2"),
        ("AWS_SECRET_ACCESS_KEY_C", JValue.str "S2")] "AWS_ACCESS_KEY_ID_A_B" =
      none := by
  exact ⟨rfl, rfl⟩

/-- C1 (amended: each non-word character is replaced by one underscore of
its own, so a run of k consecutive non-word characters yields k
underscores; the rest of the claim is unchanged): with more than one user,
create_user_secrets derives for every user the suffix obtained by
upper-casing the username with every character outside [A-Za-z0-9_]
replaced by an underscore, prefixed with an underscore, and emits
AWS_ACCESS_KEY_ID and AWS_SECRET_ACCESS_KEY with that suffix, bound to the
key id and secret of the user. -/
theorem claim_C1 (users : List (String × (JValue × JValue)))
    (h : 1 < users.length) :
    create_user_secrets (users.map fun p => (JValue.str p.1, p.2)) =
      Except.ok (claimedUserSecrets users) :=
  create_user_secrets_multi users h

/-- Witness for C1 at the two users of the test suite. -/
theorem claim_C1_witness :
    create_user_secrets
      [(JValue.str "example-user", (JValue.str "AK1", JValue.str "SK1")),
       (JValue.str "test-user", (JValue.str "AK2", JValue.str "SK2"))] =
      Except.ok [("AWS_ACCESS_KEY_ID_EXAMPLE_USER", JValue.str "AK1"),
        ("AWS_SECRET_ACCESS_KEY_EXAMPLE_USER", JValue.str "SK1"),
        ("AWS_ACCESS_KEY_ID_TEST_USER", JValue.str "AK2"),
        ("AWS_SECRET_ACCESS_KEY_TEST_USER", JValue.str "SK2")] :=
  (claim_C1 [("example-user", (JValue.str "AK1", JValue.str "SK1")),
    ("test-user", (JValue.str "AK2", JValue.str "SK2"))] (by decide)).trans
    (by rfl)

/-- C4: create_user_secrets on a single-user credential dict emits exactly
AWS_ACCESS_KEY_ID bound to the key id and AWS_SECRET_ACCESS_KEY bound to
the secret, with no suffix, and on the empty credential dict it emits the
empty dict. -/
theorem claim_C4 :
    (∀ (user key_id secret : JValue),
      create_user_secrets [(user, (key_id, secret))] =
        Except.ok [("AWS_ACCESS_KEY_ID", key_id),
          ("AWS_SECRET_ACCESS_KEY", secret)]) ∧
    create_user_secrets [] = Except.ok [] := by
  exact ⟨fun user key_id secret => rfl, rfl⟩

/-- C2 counterexample: the users a.b and a_b sanitize to the same suffix
_A_B.  On a state holding exactly these two access keys the whole run
succeeds with only two secret entries, holding the key id and secret of
the second user — the secrets of the first user are gone — and the
warning list of
the run is empty: no diagnostic of any kind is logged, although the claim
calls for at least a warning instead of the silent drop. -/
theorem claim_C2_counterexample :
    runMain
      (StateDoc.mk (some (StateValues.mk (TfModule.mk
        [Resource.mk "aws_iam_access_key.a" "aws_iam_access_key"
          [("id", JValue.str "K1"), ("secret", JValue.str "S1"),
           ("user", JValue.str "a.b")],
         Resource.mk "aws_iam_access_key.b" "aws_iam_access_key"
          [("id", JValue.str "K2"), ("secret", JValue.str "S2"),
           ("user", JValue.str "a_b")]] TfModuleList.nil))))
      "owner/repo" true =
    Except.ok ([(JValue.str "AWS_ACCESS_KEY_ID_A_B", JValue.str "K2"),
        (JValue.str "AWS_SECRET_ACCESS_KEY_A_B", JValue.str "S2")],
      [], [NetCall.getPublicKey "owner/repo"]) := by
  rfl

/-- C2 (amended: on a suffix collision create_user_secrets emits no
diagnostic; the key id and secret of the later user silently overwrite
those of the earlier user under the same two names, last write per emitted
name
wins): with more than one user the output dict binds every emitted name to
the value of the last user in iteration order that produced that name. -/
theorem claim_C2 (users : List (String × (JValue × JValue)))
    (h : 1 < users.length) :
    create_user_secrets (users.map fun p => (JValue.str p.1, p.2)) =
      Except.ok (claimedUserSecrets users) ∧
    ∀ n, alistGet (claimedUserSecrets users) n =
      lastAssoc (users.flatMap fun p =>
        [("AWS_ACCESS_KEY_ID" ++ claimedSuffix p.1, p.2.1),
         ("AWS_SECRET_ACCESS_KEY" ++ claimedSuffix p.1, p.2.2)]) n := by
  refine ⟨create_user_secrets_multi users h, fun n => ?_⟩
  rw [claimedUserSecrets, claimedUserSecrets_pairs users [], fromPairs_get]

/-- Witness for C2 at the two colliding users a.b and a_b. -/
theorem claim_C2_witness :
    (create_user_secrets
      [(JValue.str "a.b", (JValue.str "K1", JValue.str "S1")),
       (JValue.str "a_b", (JValue.str "K2", JValue.str "S2"))] =
      Except.ok (claimedUserSecrets
        [("a.b", (JValue.str "K1", JValue.str "S1")),
         ("a_b", (JValue.str "K2", JValue.str "S2"))]) ∧
    ∀ n, alistGet (claimedUserSecrets
        [("a.b", (JValue.str "K1", JValue.str "S1")),
         ("a_b", (JValue.str "K2", JValue.str "S2"))]) n =
      lastAssoc ([("a.b", (JValue.str "K1", JValue.str "S1")),
         ("a_b", (JValue.str "K2", JValue.str "S2"))].flatMap fun p =>
        [("AWS_ACCESS_KEY_ID" ++ claimedSuffix p.1, p.2.1),
         ("AWS_SECRET_ACCESS_KEY" ++ claimedSuffix p.1, p.2.2)]) n) :=
  claim_C2 [("a.b", (JValue.str "K1", JValue.str "S1")),
    ("a_b", (JValue.str "K2", JValue.str "S2"))] (by decide)

/-- C3 counterexample: a resource whose GitHub_Secret_Name tag is present
but bound to the empty string, with no lookup tag.  The claim (name tag
present, lookup tag absent) calls for a warning; the code logs nothing and
yields nothing, because it tests the tag value for truthiness, not the key
for presence. -/
theorem claim_C3_counterexample :
    (alistGet (getTags [("tags", JValue.obj (JObject.ofList
        [(GITHUB_SECRET_NAME_TAG, JValue.str "")]))])
      GITHUB_SECRET_NAME_TAG).isSome = true ∧
    find_tagged_secret "res" [("tags", JValue.obj (JObject.ofList
        [(GITHUB_SECRET_NAME_TAG, JValue.str "")]))] = ([], []) := by
  exact ⟨rfl, rfl⟩

/-- C3 (amended: presence of a tag means a truthy tag value — an absent
key and a falsy value such as the empty string behave alike — and a
resolvable lookup means a value that is present and non-null): for every
resource-name/resource-data pair, find_tagged_secret yields nothing and
logs nothing when the name tag is absent or falsy; yields nothing and logs
a warning when the name tag is truthy but the lookup tag is absent or
falsy; yields nothing and logs a warning when both tags are truthy but the
lookup key resolves to nothing or to null in the values dict; and
otherwise yields exactly the single pair of the name tag value and the
resolved value. -/
theorem claim_C3 (resource_name : String)
    (resource_data : List (String × JValue)) :
    (truthyOpt (alistGet (getTags resource_data) GITHUB_SECRET_NAME_TAG) = false →
      find_tagged_secret resource_name resource_data = ([], [])) ∧
    (∀ sn, alistGet (getTags resource_data) GITHUB_SECRET_NAME_TAG = some sn →
      sn.truthy = true →
      truthyOpt (alistGet (getTags resource_data)
        GITHUB_SECRET_TERRAFORM_LOOKUP_TAG) = false →
      find_tagged_secret resource_name resource_data =
        ([], [LogW.missingLookupTag resource_name])) ∧
    (∀ sn lt, alistGet (getTags resource_data) GITHUB_SECRET_NAME_TAG = some sn →
      sn.truthy = true →
      alistGet (getTags resource_data) GITHUB_SECRET_TERRAFORM_LOOKUP_TAG =
        some lt →
      lt.truthy = true →
      (jKeyGet resource_data lt = none ∨
        jKeyGet resource_data lt = some JValue.null) →
      find_tagged_secret resource_name resource_data =
        ([], [LogW.couldNotLookup lt])) ∧
    (∀ sn lt v, alistGet (getTags resource_data) GITHUB_SECRET_NAME_TAG = some sn →
      sn.truthy = true →
      alistGet (getTags resource_data) GITHUB_SECRET_TERRAFORM_LOOKUP_TAG =
        some lt →
      lt.truthy = true →
      jKeyGet resource_data lt = some v → v ≠ JValue.null →
      find_tagged_secret resource_name resource_data = ([(sn, v)], [])) := by
  refine ⟨?_, ?_, ?_, ?_⟩
  · intro hfalse
    cases hname : alistGet (getTags resource_data) GITHUB_SECRET_NAME_TAG with
    | none => simp [find_tagged_secret, hname]
    | some sn =>
      rw [hname] at hfalse
      simp [truthyOpt] at hfalse
      simp [find_tagged_secret, hname, hfalse]
  · intro sn hname htr hlfalse
    cases hlook : alistGet (getTags resource_data)
        GITHUB_SECRET_TERRAFORM_LOOKUP_TAG with
    | none => simp [find_tagged_secret, hname, htr, hlook]
    | some lt =>
      rw [hlook] at hlfalse
      simp [truthyOpt] at hlfalse
      simp [find_tagged_secret, hname, htr, hlook, hlfalse]
  · intro sn lt hname htr hlook hltr hmiss
    rcases hmiss with hmiss | hmiss <;>
      simp [find_tagged_secret, hname, htr, hlook, hltr, hmiss]
  · intro sn lt v hname htr hlook hltr hv hvne
    cases v with
    | null => exact absurd rfl hvne
    | bool b => simp [find_tagged_secret, hname, htr, hlook, hltr, hv]
    | num n => simp [find_tagged_secret, hname, htr, hlook, hltr, hv]
    | str s => simp [find_tagged_secret, hname, htr, hlook, hltr, hv]
    | arr a => simp [find_tagged_secret, hname, htr, hlook, hltr, hv]
    | obj o => simp [find_tagged_secret, hname, htr, hlook, hltr, hv]

/-- Witness for C3 at a resource carrying both tags and the looked-up
attribute. -/
theorem claim_C3_witness :
    find_tagged_secret "res"
      [("arn", JValue.str "arn:aws:iam::123:role/x"),
       ("tags", JValue.obj (JObject.ofList
         [(GITHUB_SECRET_NAME_TAG, JValue.str "BUILD_ROLE_TO_ASSUME"),
          (GITHUB_SECRET_TERRAFORM_LOOKUP_TAG, JValue.str "arn")]))] =
      ([(JValue.str "BUILD_ROLE_TO_ASSUME",
         JValue.str "arn:aws:iam::123:role/x")], []) :=
  (claim_C3 "res"
    [("arn", JValue.str "arn:aws:iam::123:role/x"),
     ("tags", JValue.obj (JObject.ofList
       [(GITHUB_SECRET_NAME_TAG, JValue.str "BUILD_ROLE_TO_ASSUME"),
        (GITHUB_SECRET_TERRAFORM_LOOKUP_TAG, JValue.str "arn")]))]).2.2.2
    (JValue.str "BUILD_ROLE_TO_ASSUME") (JValue.str "arn")
    (JValue.str "arn:aws:iam::123:role/x") rfl rfl rfl rfl rfl (by decide)

/-- C10: find_tagged_secret tests tag values by truthiness, not key
presence: a name tag bound to the empty string yields nothing and logs
nothing; a lookup tag bound to the empty string takes the
missing-lookup-tag warning path; a lookup key present in the values dict
but bound to null behaves exactly like an absent lookup key (warning,
secret skipped); and any present non-null resolved value is yielded,
whatever its JSON shape. -/
theorem claim_C10 (resource_name : String)
    (resource_data : List (String × JValue)) :
    (alistGet (getTags resource_data) GITHUB_SECRET_NAME_TAG =
        some (JValue.str "") →
      find_tagged_secret resource_name resource_data = ([], [])) ∧
    (∀ sn, alistGet (getTags resource_data) GITHUB_SECRET_NAME_TAG = some sn →
      sn.truthy = true →
      alistGet (getTags resource_data) GITHUB_SECRET_TERRAFORM_LOOKUP_TAG =
        some (JValue.str "") →
      find_tagged_secret resource_name resource_data =
        ([], [LogW.missingLookupTag resource_name])) ∧
    (∀ sn s, alistGet (getTags resource_data) GITHUB_SECRET_NAME_TAG = some sn →
      sn.truthy = true →
      alistGet (getTags resource_data) GITHUB_SECRET_TERRAFORM_LOOKUP_TAG =
        some (JValue.str s) →
      s ≠ "" →
      (alistGet resource_data s = some JValue.null ∨
        alistGet resource_data s = none) →
      find_tagged_secret resource_name resource_data =
        ([], [LogW.couldNotLookup (JValue.str s)])) ∧
    (∀ sn s v, alistGet (getTags resource_data) GITHUB_SECRET_NAME_TAG = some sn →
      sn.truthy = true →
      alistGet (getTags resource_data) GITHUB_SECRET_TERRAFORM_LOOKUP_TAG =
        some (JValue.str s) →
      s ≠ "" →
      alistGet resource_data s = some v → v ≠ JValue.null →
      find_tagged_secret resource_name resource_data = ([(sn, v)], [])) := by
  refine ⟨?_, ?_, ?_, ?_⟩
  · intro hname
    simp [find_tagged_secret, hname, JValue.truthy]
  · intro sn hname htr hlook
    have hlfalse : (JValue.str "").truthy = false := rfl
    simp [find_tagged_secret, hname, htr, hlook, hlfalse]
  · intro sn s hname htr hlook hs hmiss
    have hltr : (JValue.str s).truthy = true := by
      simp [JValue.truthy, hs]
    rcases hmiss with hmiss | hmiss <;>
      simp [find_tagged_secret, hname, htr, hlook, hltr, jKeyGet, hmiss]
  · intro sn s v hname htr hlook hs hv hvne
    have hltr : (JValue.str s).truthy = true := by
      simp [JValue.truthy, hs]
    cases v with
    | null => exact absurd rfl hvne
    | bool b => simp [find_tagged_secret, hname, htr, hlook, hltr, jKeyGet, hv]
    | num n => simp [find_tagged_secret, hname, htr, hlook, hltr, jKeyGet, hv]
    | str s2 => simp [find_tagged_secret, hname, htr, hlook, hltr, jKeyGet, hv]
    | arr a => simp [find_tagged_secret, hname, htr, hlook, hltr, jKeyGet, hv]
    | obj o => simp [find_tagged_secret, hname, htr, hlook, hltr, jKeyGet, hv]

/-- Witness for C10 at a resource whose lookup key resolves to a non-string
JSON number. -/
theorem claim_C10_witness :
    find_tagged_secret "res"
      [("count", JValue.num 7),
       ("tags", JValue.obj (JObject.ofList
         [(GITHUB_SECRET_NAME_TAG, JValue.str "N"),
          (GITHUB_SECRET_TERRAFORM_LOOKUP_TAG, JValue.str "count")]))] =
      ([(JValue.str "N", JValue.num 7)], []) :=
  (claim_C10 "res"
    [("count", JValue.num 7),
     ("tags", JValue.obj (JObject.ofList
       [(GITHUB_SECRET_NAME_TAG, JValue.str "N"),
        (GITHUB_SECRET_TERRAFORM_LOOKUP_TAG, JValue.str "count")]))]).2.2.2
    (JValue.str "N") "count" (JValue.num 7) rfl rfl rfl (by decide) rfl
    (by decide)

/-- C8: both aggregators are last-write-wins in traversal order.  In
get_users the aggregated dict binds a user to the key id and secret of the
last aws_iam_access_key credential yielded for that user; in
get_resource_secrets the tagged-resource pairs are inserted first and the
tagged-output pairs second, and the dict binds a secret name to the last
value in that combined order. -/
theorem claim_C8 (state : StateValues) :
    (∀ creds user_creds w, parse_creds state = Except.ok creds →
      get_users state = Except.ok (user_creds, w) →
      ∀ u, alistGet user_creds u = lastAssoc creds u) ∧
    (∀ n, alistGet (get_resource_secrets state).1 n =
      lastAssoc ((parse_tagged_resources state).1 ++
        (parse_tagged_outputs state).1) n) := by
  constructor
  · intro creds user_creds w hp hu
    rw [get_users, hp] at hu
    simp only [Bind.bind, Except.bind, Except.ok.injEq, Prod.mk.injEq] at hu
    intro u
    rw [← hu.1, fromPairs_get]
  · intro n
    simp only [get_resource_secrets]
    exact fromPairs_get _ n

/-- Witness for C8 at a state holding two access keys for the same user. -/
theorem claim_C8_witness :
    alistGet [(JValue.str "u", (JValue.str "K2", JValue.str "S2"))]
      (JValue.str "u") =
    lastAssoc [(JValue.str "u", JValue.str "K1", JValue.str "S1"),
      (JValue.str "u", JValue.str "K2", JValue.str "S2")] (JValue.str "u") :=
  (claim_C8 (StateValues.mk (TfModule.mk
    [Resource.mk "aws_iam_access_key.a" "aws_iam_access_key"
      [("id", JValue.str "K1"), ("secret", JValue.str "S1"),
       ("user", JValue.str "u")],
     Resource.mk "aws_iam_access_key.b" "aws_iam_access_key"
      [("id", JValue.str "K2"), ("secret", JValue.str "S2"),
       ("user", JValue.str "u")]] TfModuleList.nil))).1
    [(JValue.str "u", JValue.str "K1", JValue.str "S1"),
     (JValue.str "u", JValue.str "K2", JValue.str "S2")]
    [(JValue.str "u", (JValue.str "K2", JValue.str "S2"))] [] rfl rfl
    (JValue.str "u")

/-- C9: output extraction inspects only the root module resource list —
the child module lists are never consulted — and selects exactly the
resources whose values.outputs entry is a non-empty JSON object, and
parse_tagged_outputs applies the tag-lookup extraction to every key/value
binding of each selected outputs object. -/
theorem claim_C9 (rs : List Resource) (cms cms2 : TfModuleList) :
    find_outputs (StateValues.mk (TfModule.mk rs cms)) =
      find_outputs (StateValues.mk (TfModule.mk rs cms2)) ∧
    parse_tagged_outputs (StateValues.mk (TfModule.mk rs cms)) =
      parse_tagged_outputs (StateValues.mk (TfModule.mk rs cms2)) ∧
    (∀ outs, outs ∈ find_outputs (StateValues.mk (TfModule.mk rs cms)) →
      outs ≠ [] ∧ ∃ r, r ∈ rs ∧ ∃ o,
        alistGet r.values "outputs" = some (JValue.obj o) ∧
        o ≠ JObject.nil ∧ outs = o.toList) ∧
    (∀ r, r ∈ rs → ∀ o, alistGet r.values "outputs" = some (JValue.obj o) →
      o ≠ JObject.nil →
      o.toList ∈ find_outputs (StateValues.mk (TfModule.mk rs cms))) ∧
    parse_tagged_outputs (StateValues.mk (TfModule.mk rs cms)) =
      collectResults ((find_outputs (StateValues.mk (TfModule.mk rs cms))).flatMap
        fun outs => outs.map fun p =>
          find_tagged_secret p.1 (asResourceData p.2)) := by
  refine ⟨rfl, rfl, ?_, ?_, rfl⟩
  · intro outs houts
    simp only [find_outputs, List.mem_filterMap] at houts
    obtain ⟨r, hr, hf⟩ := houts
    cases hget : alistGet r.values "outputs" with
    | none => rw [hget] at hf; simp at hf
    | some v =>
      rw [hget] at hf
      cases v with
      | null => simp at hf
      | bool b => simp at hf
      | num n2 => simp at hf
      | str s => simp at hf
      | arr a => simp at hf
      | obj o =>
        by_cases ho : o = JObject.nil
        · subst ho; simp at hf
        · simp only [ho, if_false, Option.some.injEq] at hf
          refine ⟨?_, r, hr, o, hget, ho, hf.symm⟩
          rw [← hf]
          cases o with
          | nil => exact absurd rfl ho
          | cons k v2 t => simp [JObject.toList]
  · intro r hr o hget ho
    simp only [find_outputs, List.mem_filterMap]
    exact ⟨r, hr, by rw [hget]; simp [ho]⟩

/-- Witness for C9 at a root resource carrying one tagged output next to a
child module. -/
theorem claim_C9_witness :
    (JObject.cons "role" (JValue.obj (JObject.ofList
      [("arn", JValue.str "A"),
       ("tags", JValue.obj (JObject.ofList
         [(GITHUB_SECRET_NAME_TAG, JValue.str "N"),
          (GITHUB_SECRET_TERRAFORM_LOOKUP_TAG, JValue.str "arn")]))]))
      JObject.nil).toList ∈
      find_outputs (StateValues.mk (TfModule.mk
        [Resource.mk "wrapper" "terraform_wrapper"
          [("outputs", JValue.obj (JObject.cons "role" (JValue.obj
            (JObject.ofList
              [("arn", JValue.str "A"),
               ("tags", JValue.obj (JObject.ofList
                 [(GITHUB_SECRET_NAME_TAG, JValue.str "N"),
                  (GITHUB_SECRET_TERRAFORM_LOOKUP_TAG, JValue.str "arn")]))]))
            JObject.nil))]]
        (TfModuleList.cons (TfModule.mk [] TfModuleList.nil)
          TfModuleList.nil))) :=
  (claim_C9
    [Resource.mk "wrapper" "terraform_wrapper"
      [("outputs", JValue.obj (JObject.cons "role" (JValue.obj
        (JObject.ofList
          [("arn", JValue.str "A"),
           ("tags", JValue.obj (JObject.ofList
             [(GITHUB_SECRET_NAME_TAG, JValue.str "N"),
              (GITHUB_SECRET_TERRAFORM_LOOKUP_TAG, JValue.str "arn")]))]))
        JObject.nil))]]
    (TfModuleList.cons (TfModule.mk [] TfModuleList.nil) TfModuleList.nil)
    TfModuleList.nil).2.2.2.1
    (Resource.mk "wrapper" "terraform_wrapper"
      [("outputs", JValue.obj (JObject.cons "role" (JValue.obj
        (JObject.ofList
          [("arn", JValue.str "A"),
           ("tags", JValue.obj (JObject.ofList
             [(GITHUB_SECRET_NAME_TAG, JValue.str "N"),
              (GITHUB_SECRET_TERRAFORM_LOOKUP_TAG, JValue.str "arn")]))]))
        JObject.nil))])
    (by decide)
    (JObject.cons "role" (JValue.obj (JObject.ofList
      [("arn", JValue.str "A"),
       ("tags", JValue.obj (JObject.ofList
         [(GITHUB_SECRET_NAME_TAG, JValue.str "N"),
          (GITHUB_SECRET_TERRAFORM_LOOKUP_TAG, JValue.str "arn")]))]))
      JObject.nil)
    rfl (by decide)

theorem readCred_error (r : Resource)
    (h : alistGet r.values "id" = none ∨ alistGet r.values "secret" = none ∨
      alistGet r.values "user" = none) :
    ∃ e, readCred r = Except.error e := by
  cases hid : alistGet r.values "id" with
  | none =>
    exact ⟨"KeyError: " ++ "id",
      by simp [readCred, dictIndex, hid, Bind.bind, Except.bind]⟩
  | some vid =>
    cases hsec : alistGet r.values "secret" with
    | none =>
      exact ⟨"KeyError: " ++ "secret",
        by simp [readCred, dictIndex, hid, hsec, Bind.bind, Except.bind]⟩
    | some vsec =>
      cases huser : alistGet r.values "user" with
      | none =>
        exact ⟨"KeyError: " ++ "user",
          by simp [readCred, dictIndex, hid, hsec, huser, Bind.bind, Except.bind]⟩
      | some vuser => simp_all

theorem mapM_readCred_error (l : List Resource) (r : Resource) (hr : r ∈ l)
    (e0 : String) (he : readCred r = Except.error e0) :
    ∃ e, l.mapM readCred = Except.error e := by
  induction l with
  | nil => cases hr
  | cons hd tl ih =>
    rw [List.mapM_cons]
    cases hhd : readCred hd with
    | error e =>
      exact ⟨e, rfl⟩
    | ok v =>
      rcases List.mem_cons.mp hr with h | h
      · subst h; rw [hhd] at he; cases he
      · obtain ⟨e, hmap⟩ := ih h
        exact ⟨e, by rw [hmap]; rfl⟩

/-- C7: a state document without a truthy top-level values section makes
the run raise the fatal "No Terraform state found." exception, and an
aws_iam_access_key resource reached by the traversal that lacks any of the
values id, secret or user keys makes the run raise a KeyError; in both
cases the run ends in an error result that has issued no network call
(the public key GET and the secret PUTs happen only in
create_all_secrets, which runs after every parsing stage). -/
theorem claim_C7 (doc : StateDoc) (repo_name : String) (dry_run : Bool) :
    (doc.values = none →
      runMain doc repo_name dry_run = Except.error "No Terraform state found." ∧
      issuedCalls (runMain doc repo_name dry_run) = []) ∧
    (∀ state r, doc.values = some state →
      r ∈ find_resources state (some "aws_iam_access_key") →
      (alistGet r.values "id" = none ∨ alistGet r.values "secret" = none ∨
        alistGet r.values "user" = none) →
      (∃ e, runMain doc repo_name dry_run = Except.error e) ∧
      issuedCalls (runMain doc repo_name dry_run) = []) := by
  constructor
  · intro hv
    have h1 : runMain doc repo_name dry_run =
        Except.error "No Terraform state found." := by
      simp [runMain, get_terraform_state, hv, Bind.bind, Except.bind]
    exact ⟨h1, by rw [h1]; rfl⟩
  · intro state r hv hr hmiss
    obtain ⟨e0, he0⟩ := readCred_error r hmiss
    obtain ⟨e1, he1⟩ := mapM_readCred_error _ r hr e0 he0
    have hgu : get_users state = Except.error e1 := by
      simp only [get_users, parse_creds]
      rw [he1]
      rfl
    have h1 : runMain doc repo_name dry_run = Except.error e1 := by
      have hgt : get_terraform_state doc = Except.ok state := by
        simp [get_terraform_state, hv]
      simp [runMain, hgt, hgu, Bind.bind, Except.bind]
    exact ⟨⟨e1, h1⟩, by rw [h1]; rfl⟩

/-- Witness for C7 at the document without a values section. -/
theorem claim_C7_witness :
    runMain (StateDoc.mk none) "owner/repo" false =
      Except.error "No Terraform state found." ∧
    issuedCalls (runMain (StateDoc.mk none) "owner/repo" false) = [] :=
  (claim_C7 (StateDoc.mk none) "owner/repo" false).1 rfl

@[simp] theorem keysOf_nil {α β : Type} : keysOf ([] : List (α × β)) = [] := rfl

@[simp] theorem keysOf_cons {α β : Type} (p : α × β) (tl : List (α × β)) :
    keysOf (p :: tl) = p.1 :: keysOf tl := rfl

theorem alistGet_eq_none_of_not_mem {α β : Type} [DecidableEq α]
    (d : List (α × β)) (k : α) (h : k ∉ keysOf d) : alistGet d k = none := by
  induction d with
  | nil => rfl
  | cons hd tl ih =>
    obtain ⟨k2, v⟩ := hd
    simp only [keysOf_cons, List.mem_cons, not_or] at h
    have hne : ¬ k2 = k := fun he => h.1 he.symm
    simp [alistGet, hne, ih h.2]

theorem alistGet_eq_lastAssoc_of_nodup {α β : Type} [DecidableEq α]
    (d : List (α × β)) (h : (keysOf d).Nodup) (k : α) :
    alistGet d k = lastAssoc d k := by
  induction d with
  | nil => rfl
  | cons hd tl ih =>
    obtain ⟨k2, v⟩ := hd
    rw [lastAssoc_cons]
    simp only [keysOf_cons, List.nodup_cons] at h
    by_cases he : k2 = k
    · subst he
      rw [show alistGet ((k2, v) :: tl) k2 = some v from by simp [alistGet],
        ← ih h.2, alistGet_eq_none_of_not_mem tl k2 h.1]
      simp
    · rw [show alistGet ((k2, v) :: tl) k = alistGet tl k from by
        simp [alistGet, he], ← ih h.2]
      simp [he]

theorem mem_keysOf_insert {α β : Type} [DecidableEq α] (d : List (α × β))
    (k k2 : α) (v : β) (h : k2 ∈ keysOf (alistInsert d k v)) :
    k2 = k ∨ k2 ∈ keysOf d := by
  induction d with
  | nil =>
    simp only [alistInsert, keysOf_cons, keysOf_nil, List.mem_singleton] at h
    exact Or.inl h
  | cons hd tl ih =>
    obtain ⟨k3, v3⟩ := hd
    by_cases he : k3 = k
    · subst he
      rw [show alistInsert ((k3, v3) :: tl) k3 v = (k3, v) :: tl from by
        simp [alistInsert]] at h
      simp only [keysOf_cons, List.mem_cons] at h ⊢
      tauto
    · rw [show alistInsert ((k3, v3) :: tl) k v =
          (k3, v3) :: alistInsert tl k v from by simp [alistInsert, he]] at h
      simp only [keysOf_cons, List.mem_cons] at h ⊢
      rcases h with h | h
      · exact Or.inr (Or.inl h)
      · rcases ih h with h2 | h2
        · exact Or.inl h2
        · exact Or.inr (Or.inr h2)

theorem keysOf_insert_nodup {α β : Type} [DecidableEq α] (d : List (α × β))
    (k : α) (v : β) (h : (keysOf d).Nodup) :
    (keysOf (alistInsert d k v)).Nodup := by
  induction d with
  | nil => simp [alistInsert]
  | cons hd tl ih =>
    obtain ⟨k3, v3⟩ := hd
    simp only [keysOf_cons, List.nodup_cons] at h
    by_cases he : k3 = k
    · subst he
      rw [show alistInsert ((k3, v3) :: tl) k3 v = (k3, v) :: tl from by
        simp [alistInsert]]
      simp only [keysOf_cons, List.nodup_cons]
      exact h
    · rw [show alistInsert ((k3, v3) :: tl) k v =
          (k3, v3) :: alistInsert tl k v from by simp [alistInsert, he]]
      simp only [keysOf_cons, List.nodup_cons]
      refine ⟨fun hmem => ?_, ih h.2⟩
      rcases mem_keysOf_insert tl k k3 v hmem with h4 | h4
      · exact he h4
      · exact h.1 h4

theorem userStep_nodup (n : Nat) (acc out : List (String × JValue))
    (p : JValue × (JValue × JValue)) (h : (keysOf acc).Nodup)
    (hs : userStep n acc p = Except.ok out) : (keysOf out).Nodup := by
  unfold userStep at hs
  cases hsuf : userSuffix n p.1 with
  | error e => rw [hsuf] at hs; cases hs
  | ok suffix =>
    rw [hsuf] at hs
    simp only [Bind.bind, Except.bind, pure, Except.pure, Except.ok.injEq] at hs
    rw [← hs]
    exact keysOf_insert_nodup _ _ _ (keysOf_insert_nodup _ _ _ h)

theorem foldlM_userStep_nodup (l : List (JValue × (JValue × JValue))) (n : Nat) :
    ∀ acc out, (keysOf acc).Nodup →
      l.foldlM (userStep n) acc = Except.ok out → (keysOf out).Nodup := by
  induction l with
  | nil =>
    intro acc out h heq
    simp only [List.foldlM_nil, pure, Except.pure, Except.ok.injEq] at heq
    rw [← heq]
    exact h
  | cons hd tl ih =>
    intro acc out h heq
    rw [List.foldlM_cons] at heq
    cases hstep : userStep n acc hd with
    | error e => rw [hstep] at heq; cases heq
    | ok acc2 =>
      rw [hstep] at heq
      exact ih acc2 out (userStep_nodup n acc acc2 hd h hstep) heq

theorem create_user_secrets_nodup (uc : List (JValue × (JValue × JValue)))
    (out : List (String × JValue))
    (h : create_user_secrets uc = Except.ok out) : (keysOf out).Nodup :=
  foldlM_userStep_nodup uc uc.length [] out (by simp) h

theorem keysOf_map_str (out : List (String × JValue)) :
    keysOf (out.map fun p => (JValue.str p.1, p.2)) =
      (keysOf out).map JValue.str := by
  induction out with
  | nil => rfl
  | cons hd tl ih => simp [ih]

/-- C5: once the state parses and the user secrets build, the run always
finishes as a success whose published dict is the resource secrets updated
by the user secrets — so on a shared name the user-credential-derived
value is the one in the merged dict — and a key overlap between the two
sources adds the overlap warning to the log instead of raising. -/
theorem claim_C5 (doc : StateDoc) (repo_name : String) (dry_run : Bool)
    (state : StateValues) (user_creds : List (JValue × (JValue × JValue)))
    (w1 : List LogW) (user_secrets : List (String × JValue))
    (hstate : get_terraform_state doc = Except.ok state)
    (husers : get_users state = Except.ok (user_creds, w1))
    (hcreate : create_user_secrets user_creds = Except.ok user_secrets) :
    ∃ warns calls, runMain doc repo_name dry_run =
      Except.ok (dictUpdate (get_resource_secrets state).1
        (user_secrets.map fun p => (JValue.str p.1, p.2)), warns, calls) ∧
    (∀ n v, alistGet (user_secrets.map fun p => (JValue.str p.1, p.2)) n =
        some v →
      alistGet (dictUpdate (get_resource_secrets state).1
        (user_secrets.map fun p => (JValue.str p.1, p.2))) n = some v) ∧
    (keysOverlap (user_secrets.map fun p => (JValue.str p.1, p.2))
        (get_resource_secrets state).1 = true →
      LogW.userSecretNamesOverlap ∈ warns) := by
  refine ⟨w1 ++ (get_resource_secrets state).2 ++
    (if keysOverlap (user_secrets.map fun p => (JValue.str p.1, p.2))
        (get_resource_secrets state).1
     then [LogW.userSecretNamesOverlap] else []),
    create_all_secrets (dictUpdate (get_resource_secrets state).1
      (user_secrets.map fun p => (JValue.str p.1, p.2))) repo_name dry_run,
    ?_, ?_, ?_⟩
  · simp [runMain, hstate, husers, hcreate, Bind.bind, Except.bind]
  · intro n v hget
    have hnodup :
        (keysOf (user_secrets.map fun p => (JValue.str p.1, p.2))).Nodup := by
      rw [keysOf_map_str]
      exact (create_user_secrets_nodup user_creds user_secrets hcreate).map
        (fun a b hab => by injection hab)
    rw [dictUpdate_get, ← alistGet_eq_lastAssoc_of_nodup _ hnodup n, hget]
    rfl
  · intro hov
    simp [hov]

/-- Witness for C5 at a state with one user credential and one tagged
resource whose secret name collides with AWS_ACCESS_KEY_ID. -/
theorem claim_C5_witness :
    ∃ warns calls,
      runMain (StateDoc.mk (some (StateValues.mk (TfModule.mk
        [Resource.mk "aws_iam_access_key.k" "aws_iam_access_key"
          [("id", JValue.str "KID"), ("secret", JValue.str "SEC"),
           ("user", JValue.str "u")],
         Resource.mk "aws_s3_bucket.b" "aws_s3_bucket"
          [("arn", JValue.str "OTHER"),
           ("tags", JValue.obj (JObject.ofList
             [(GITHUB_SECRET_NAME_TAG, JValue.str "AWS_ACCESS_KEY_ID"),
              (GITHUB_SECRET_TERRAFORM_LOOKUP_TAG, JValue.str "arn")]))]]
        TfModuleList.nil)))) "owner/repo" false =
      Except.ok (dictUpdate
        (get_resource_secrets (StateValues.mk (TfModule.mk
          [Resource.mk "aws_iam_access_key.k" "aws_iam_access_key"
            [("id", JValue.str "KID"), ("secret", JValue.str "SEC"),
             ("user", JValue.str "u")],
           Resource.mk "aws_s3_bucket.b" "aws_s3_bucket"
            [("arn", JValue.str "OTHER"),
             ("tags", JValue.obj (JObject.ofList
               [(GITHUB_SECRET_NAME_TAG, JValue.str "AWS_ACCESS_KEY_ID"),
                (GITHUB_SECRET_TERRAFORM_LOOKUP_TAG, JValue.str "arn")]))]]
          TfModuleList.nil))).1
        ([("AWS_ACCESS_KEY_ID", JValue.str "KID"),
          ("AWS_SECRET_ACCESS_KEY", JValue.str "SEC")].map
          fun p => (JValue.str p.1, p.2)), warns, calls) ∧
    (∀ n v, alistGet ([("AWS_ACCESS_KEY_ID", JValue.str "KID"),
        ("AWS_SECRET_ACCESS_KEY", JValue.str "SEC")].map
        fun p => (JValue.str p.1, p.2)) n = some v →
      alistGet (dictUpdate
        (get_resource_secrets (StateValues.mk (TfModule.mk
          [Resource.mk "aws_iam_access_key.k" "aws_iam_access_key"
            [("id", JValue.str "KID"), ("secret", JValue.str "SEC"),
             ("user", JValue.str "u")],
           Resource.mk "aws_s3_bucket.b" "aws_s3_bucket"
            [("arn", JValue.str "OTHER"),
             ("tags", JValue.obj (JObject.ofList
               [(GITHUB_SECRET_NAME_TAG, JValue.str "AWS_ACCESS_KEY_ID"),
                (GITHUB_SECRET_TERRAFORM_LOOKUP_TAG, JValue.str "arn")]))]]
          TfModuleList.nil))).1
        ([("AWS_ACCESS_KEY_ID", JValue.str "KID"),
          ("AWS_SECRET_ACCESS_KEY", JValue.str "SEC")].map
          fun p => (JValue.str p.1, p.2))) n = some v) ∧
    (keysOverlap ([("AWS_ACCESS_KEY_ID", JValue.str "KID"),
        ("AWS_SECRET_ACCESS_KEY", JValue.str "SEC")].map
        fun p => (JValue.str p.1, p.2))
      (get_resource_secrets (StateValues.mk (TfModule.mk
        [Resource.mk "aws_iam_access_key.k" "aws_iam_access_key"
          [("id", JValue.str "KID"), ("secret", JValue.str "SEC"),
           ("user", JValue.str "u")],
         Resource.mk "aws_s3_bucket.b" "aws_s3_bucket"
          [("arn", JValue.str "OTHER"),
           ("tags", JValue.obj (JObject.ofList
             [(GITHUB_SECRET_NAME_TAG, JValue.str "AWS_ACCESS_KEY_ID"),
              (GITHUB_SECRET_TERRAFORM_LOOKUP_TAG, JValue.str "arn")]))]]
        TfModuleList.nil))).1 = true →
      LogW.userSecretNamesOverlap ∈ warns) :=
  claim_C5 (StateDoc.mk (some (StateValues.mk (TfModule.mk
      [Resource.mk "aws_iam_access_key.k" "aws_iam_access_key"
        [("id", JValue.str "KID"), ("secret", JValue.str "SEC"),
         ("user", JValue.str "u")],
       Resource.mk "aws_s3_bucket.b" "aws_s3_bucket"
        [("arn", JValue.str "OTHER"),
         ("tags", JValue.obj (JObject.ofList
           [(GITHUB_SECRET_NAME_TAG, JValue.str "AWS_ACCESS_KEY_ID"),
            (GITHUB_SECRET_TERRAFORM_LOOKUP_TAG, JValue.str "arn")]))]]
      TfModuleList.nil)))) "owner/repo" false
    (StateValues.mk (TfModule.mk
      [Resource.mk "aws_iam_access_key.k" "aws_iam_access_key"
        [("id", JValue.str "KID"), ("secret", JValue.str "SEC"),
         ("user", JValue.str "u")],
       Resource.mk "aws_s3_bucket.b" "aws_s3_bucket"
        [("arn", JValue.str "OTHER"),
         ("tags", JValue.obj (JObject.ofList
           [(GITHUB_SECRET_NAME_TAG, JValue.str "AWS_ACCESS_KEY_ID"),
            (GITHUB_SECRET_TERRAFORM_LOOKUP_TAG, JValue.str "arn")]))]]
      TfModuleList.nil))
    [(JValue.str "u", (JValue.str "KID", JValue.str "SEC"))] []
    [("AWS_ACCESS_KEY_ID", JValue.str "KID"),
     ("AWS_SECRET_ACCESS_KEY", JValue.str "SEC")] rfl rfl rfl

end TFS
